import Mathlib

/-!
Verification of the Black-Scholes-Merton option pricing notebooks
(`src/Options/Option_Valuation.ipynb` and
`src/Options/Financial_Derivative_Option_Class.ipynb`) of the
Financial-Modelling repository, as a shallow embedding over the reals.

The scipy normal distribution helpers `stats.norm.pdf(x, 0.0, 1.0)` and
`stats.norm.cdf(x, 0.0, 1.0)` are embedded by their mathematical
definitions (`normPdf`, `normCdf`).  Python-level exception behaviour of
`math.log`, `math.sqrt`, float division and `np.random.standard_normal`
is embedded by `Except`-valued wrappers (`pyLog`, `pySqrt`, `pyDiv`,
`mcs_run`) that return the documented Python error on the domain
violations the interpreter would raise on.
-/

open MeasureTheory

noncomputable section

/-- Standard normal probability density function with mean 0 and standard
deviation 1; embeds `stats.norm.pdf(x, 0.0, 1.0)` (scipy). -/
def normPdf (x : ℝ) : ℝ := (Real.sqrt (2 * Real.pi))⁻¹ * Real.exp (-(x ^ 2) / 2)

/-- Standard normal cumulative distribution function with mean 0 and standard
deviation 1; embeds `stats.norm.cdf(x, 0.0, 1.0)` (scipy). -/
def normCdf (x : ℝ) : ℝ := ∫ t in Set.Iic x, normPdf t

/-- `BSM_call_value(S_0, K, T, r, vola)` from `Option_Valuation.ipynb`:
`d1 = (math.log(S_0 / K) + (r + 0.5 * vola ** 2) * T) / (vola * math.sqrt(T))`,
`d2 = d1 - vola * math.sqrt(T)`,
`call_value = S_0 * stats.norm.cdf(d1, 0.0, 1.0) - K * math.exp(-r * T) * stats.norm.cdf(d2, 0.0, 1.0)`.
The Python-level exception behaviour of the same cell is `BSM_call_value_run`. -/
def BSM_call_value (S_0 K T r vola : ℝ) : ℝ :=
  let d1 := (Real.log (S_0 / K) + (r + 0.5 * vola ^ 2) * T) / (vola * Real.sqrt T)
  let d2 := d1 - vola * Real.sqrt T
  S_0 * normCdf d1 - K * Real.exp (-r * T) * normCdf d2

/-- The data of `class Option` from `Financial_Derivative_Option_Class.ipynb`
(fields `S0`, `K`, `T`, `r`, `vola` set by `__init__`, which performs no
validation).  Named `OptionBSM` because `Option` is taken by Lean core. -/
structure OptionBSM where
  S0 : ℝ
  K : ℝ
  T : ℝ
  r : ℝ
  vola : ℝ

/-- Method `Option.d1`:
`d1 = ((math.log(self.S0 / self.K) + (self.r + 0.5 * self.vola ** 2) * self.T) / (self.vola * math.sqrt(self.T)))`. -/
def OptionBSM.d1 (o : OptionBSM) : ℝ :=
  (Real.log (o.S0 / o.K) + (o.r + 0.5 * o.vola ^ 2) * o.T) / (o.vola * Real.sqrt o.T)

/-- Method `Option.Call_Option`:
`d2 = d1 - self.vola * math.sqrt(self.T)`,
`call_value = self.S0 * scs.norm.cdf(d1, 0.0, 1.0) - self.K * math.exp(-self.r * self.T) * scs.norm.cdf(d2, 0.0, 1.0)`. -/
def OptionBSM.Call_Option (o : OptionBSM) : ℝ :=
  let d1 := o.d1
  let d2 := d1 - o.vola * Real.sqrt o.T
  o.S0 * normCdf d1 - o.K * Real.exp (-o.r * o.T) * normCdf d2

/-- `class OptionVega(Option)`: subclass adding the `vega` method, no new fields. -/
structure OptionVega extends OptionBSM

/-- Method `OptionVega.vega`:
`vega = self.S0 * scs.norm.pdf(d1, 0.0, 1.0) * math.sqrt(self.T)` with `d1 = self.d1()`. -/
def OptionVega.vega (o : OptionVega) : ℝ :=
  let d1 := o.toOptionBSM.d1
  o.S0 * normPdf d1 * Real.sqrt o.T

/-- `Call_Option` as inherited unchanged by `OptionVega` from `Option`. -/
def OptionVega.Call_Option (o : OptionVega) : ℝ :=
  o.toOptionBSM.Call_Option

/-- One Monte Carlo terminal index level from `Option_Valuation.ipynb`:
`ST = S_0 * np.exp((r - 0.5 * vola ** 2) * T + np.sqrt(T) * vola * rand)`
at a single draw `z` of the standard-normal vector `rand`. -/
def S_T (S_0 T r vola z : ℝ) : ℝ :=
  S_0 * Real.exp ((r - 0.5 * vola ^ 2) * T + Real.sqrt T * vola * z)

/-- The Monte Carlo estimator cell from `Option_Valuation.ipynb`, as a function
of the draw vector `rand` (whose length is the path count `I`):
`pv = np.sum(np.maximum(ST - K, 0) * np.exp(-r * T)) / I`. -/
def mcs_pv (S_0 K T r vola : ℝ) (rand : List ℝ) : ℝ :=
  ((rand.map fun z => max (S_T S_0 T r vola z - K) 0 * Real.exp (-r * T)).sum) /
    (rand.length : ℝ)

/-- Python/numpy exception outcomes relevant to the two pricing cells.  The
spec's documented error kinds `InvalidParameterError` and
`InvalidSampleCountError` are included as constructors so that the spec's
error-handling claims can be stated; no code path of the source produces
them. -/
inductive PyErr
  | valueError
  | zeroDivisionError
  | invalidParameterError
  | invalidSampleCountError
  deriving DecidableEq

/-- Python float division: raises `ZeroDivisionError` on a zero denominator. -/
def pyDiv (a b : ℝ) : Except PyErr ℝ :=
  if b = 0 then .error .zeroDivisionError else .ok (a / b)

/-- Python `math.log`: raises `ValueError` on a non-positive argument. -/
def pyLog (x : ℝ) : Except PyErr ℝ :=
  if x ≤ 0 then .error .valueError else .ok (Real.log x)

/-- Python `math.sqrt`: raises `ValueError` on a negative argument. -/
def pySqrt (x : ℝ) : Except PyErr ℝ :=
  if x < 0 then .error .valueError else .ok (Real.sqrt x)

/-- Python-level semantics of `BSM_call_value`, making the implicit exceptions
of `math.log`, `math.sqrt` and float division explicit, in the evaluation
order of the source line
`d1 = (math.log(S_0 / K) + (r + 0.5 * vola ** 2) * T) / (vola * math.sqrt(T))`
(the quotient `S_0 / K` is evaluated first, then `math.log`, then
`math.sqrt(T)`, then the outer division).  `math.exp` never raises. -/
def BSM_call_value_run (S_0 K T r vola : ℝ) : Except PyErr ℝ :=
  match pyDiv S_0 K with
  | .error e => .error e
  | .ok q =>
    match pyLog q with
    | .error e => .error e
    | .ok lg =>
      match pySqrt T with
      | .error e => .error e
      | .ok s =>
        match pyDiv (lg + (r + 0.5 * vola ^ 2) * T) (vola * s) with
        | .error e => .error e
        | .ok d1 =>
          .ok (S_0 * normCdf d1 - K * Real.exp (-r * T) * normCdf (d1 - vola * s))

/-- Python-level semantics of the Monte Carlo cell:
`np.random.standard_normal(I)` raises `ValueError` for a negative size and
returns the empty vector for size 0; the remaining numpy array operations
raise nothing (in particular the division by `I` of `pv` does not raise, even
when `I = 0`).  The ambient numpy global generator is modelled by the
deterministic function `gen` from the requested size to the drawn vector. -/
def mcs_run (gen : ℤ → List ℝ) (S_0 K T r vola : ℝ) (I : ℤ) : Except PyErr ℝ :=
  if I < 0 then .error .valueError
  else
    .ok ((((gen I).map fun z => max (S_T S_0 T r vola z - K) 0 * Real.exp (-r * T)).sum) /
      (I : ℝ))

/-- Modelled from the spec: the external interface `monteCarloCallValue`
takes the five parameters, a path count and a random seed (spec section 6),
while the source cell reads numpy's ambient global generator with no seed
anywhere in the notebook; the spec (section 9) directs that the implicit
global generator be an explicit injectable random source.  The library
generator is modelled as a deterministic function `gen` from seed and count
to the drawn standard-normal vector, applied to the source's estimator. -/
def monteCarloCallValue (gen : ℕ → ℕ → List ℝ) (S_0 K T r vola : ℝ)
    (I : ℕ) (seed : ℕ) : ℝ :=
  mcs_pv S_0 K T r vola (gen seed I)

/-- The `d1` local of `BSM_call_value`, as a standalone function (identical
expression to the let-bound `d1` of the source). -/
def d1val (S_0 K T r vola : ℝ) : ℝ :=
  (Real.log (S_0 / K) + (r + 0.5 * vola ^ 2) * T) / (vola * Real.sqrt T)

/-- The `d2` local of `BSM_call_value`, as a standalone function. -/
def d2val (S_0 K T r vola : ℝ) : ℝ :=
  d1val S_0 K T r vola - vola * Real.sqrt T

/-- Degree-18 Taylor polynomial of exp(-t^2/2) (ten terms), used to certify
numeric bounds on the normal CDF. -/
def gaussTaylorP (t : ℝ) : ℝ :=
  1 - t ^ 2 / 2 + t ^ 4 / 8 - t ^ 6 / 48 + t ^ 8 / 384 - t ^ 10 / 3840 +
    t ^ 12 / 46080 - t ^ 14 / 645120 + t ^ 16 / 10321920 - t ^ 18 / 185794560

/-- Antiderivative of `gaussTaylorP` vanishing at zero. -/
def gaussTaylorInt (q : ℝ) : ℝ :=
  q - q ^ 3 / 6 + q ^ 5 / 40 - q ^ 7 / 336 + q ^ 9 / 3456 - q ^ 11 / 42240 +
    q ^ 13 / 599040 - q ^ 15 / 9676800 + q ^ 17 / 175472640 - q ^ 19 / 3530096640

/-- Uniform remainder bound for the ten-term Taylor approximation of
exp(-t^2/2) on the interval from 0 to q. -/
def gaussTaylorErr (q : ℝ) : ℝ := (q ^ 2 / 2) ^ 10 * (11 / 36288000)

end

/-! ## Helper lemmas about the standard normal density and CDF -/

/-- The standard normal density is nonnegative. -/
lemma normPdf_nonneg (x : ℝ) : 0 ≤ normPdf x :=
  mul_nonneg (inv_nonneg.mpr (Real.sqrt_nonneg _)) (Real.exp_pos _).le

/-- The standard normal density is an even function. -/
lemma normPdf_even (x : ℝ) : normPdf (-x) = normPdf x := by
  unfold normPdf
  rw [neg_sq]

/-- The density with its exponent written in the Gaussian-integral shape. -/
lemma normPdf_eq (x : ℝ) : normPdf x =
    (Real.sqrt (2 * Real.pi))⁻¹ * Real.exp (-(1 / 2 : ℝ) * x ^ 2) := by
  unfold normPdf
  rw [show -(x ^ 2) / 2 = -(1 / 2 : ℝ) * x ^ 2 from by ring]

/-- The standard normal density is integrable. -/
lemma integrable_normPdf : Integrable normPdf := by
  have h : Integrable (fun x : ℝ => Real.exp (-(1 / 2 : ℝ) * x ^ 2)) :=
    integrable_exp_neg_mul_sq (by norm_num)
  have hfun : normPdf = fun x : ℝ =>
      (Real.sqrt (2 * Real.pi))⁻¹ * Real.exp (-(1 / 2 : ℝ) * x ^ 2) :=
    funext normPdf_eq
  rw [hfun]
  exact h.const_mul _

/-- The standard normal density integrates to one. -/
lemma integral_normPdf : ∫ x, normPdf x = 1 := by
  have h : ∫ x : ℝ, Real.exp (-(1 / 2 : ℝ) * x ^ 2) = Real.sqrt (Real.pi / (1 / 2)) :=
    integral_gaussian (1 / 2)
  have h2 : (∫ x, normPdf x) =
      (Real.sqrt (2 * Real.pi))⁻¹ * ∫ x : ℝ, Real.exp (-(1 / 2 : ℝ) * x ^ 2) := by
    rw [← integral_mul_left]
    exact integral_congr_ae (Filter.Eventually.of_forall fun x => normPdf_eq x)
  rw [h2, h, show Real.pi / (1 / 2 : ℝ) = 2 * Real.pi by ring]
  have hpos : 0 < Real.sqrt (2 * Real.pi) :=
    Real.sqrt_pos.mpr (by positivity)
  field_simp

/-- Value of the standard normal CDF at zero. -/
lemma normCdf_zero : normCdf 0 = 1 / 2 := by
  have hsplit : (∫ x in Set.Iic (0 : ℝ), normPdf x) +
      ∫ x in (Set.Iic (0 : ℝ))ᶜ, normPdf x = ∫ x, normPdf x :=
    integral_add_compl measurableSet_Iic integrable_normPdf
  have hc : (Set.Iic (0 : ℝ))ᶜ = Set.Ioi 0 := Set.compl_Iic
  have hsym : (∫ x in Set.Ioi (0 : ℝ), normPdf x) = ∫ x in Set.Iic (0 : ℝ), normPdf x := by
    have h := integral_comp_neg_Ioi (0 : ℝ) normPdf
    simp only [normPdf_even, neg_zero] at h
    exact h
  rw [hc, hsym, integral_normPdf] at hsplit
  unfold normCdf
  linarith

/-- Translating a set integral over a left-infinite ray. -/
lemma setIntegral_Iic_add_right (f : ℝ → ℝ) (a c : ℝ) :
    (∫ u in Set.Iic c, f (u + a)) = ∫ t in Set.Iic (c + a), f t := by
  have h1 : MeasurePreserving (fun x : ℝ => x + a) volume volume :=
    measurePreserving_add_right volume a
  have h2 : MeasurableEmbedding (fun x : ℝ => x + a) :=
    (MeasurableEquiv.addRight a).measurableEmbedding
  have h3 := h1.setIntegral_preimage_emb h2 f (Set.Iic (c + a))
  have h4 : Set.preimage (fun x : ℝ => x + a) (Set.Iic (c + a)) = Set.Iic c := by
    rw [Set.preimage_add_const_Iic]
    simp
  rw [h4] at h3
  exact h3

/-- Pointwise exponential-shift identity for the normal density. -/
lemma normPdf_shift (a c u : ℝ) :
    Real.exp (a * (c - u)) * normPdf u =
      Real.exp (a * c + a ^ 2 / 2) * normPdf (u + a) := by
  unfold normPdf
  rw [mul_left_comm, mul_left_comm (Real.exp (a * c + a ^ 2 / 2))]
  congr 1
  rw [← Real.exp_add, ← Real.exp_add]
  congr 1
  ring

/-- The exponentially tilted normal density is integrable. -/
lemma integrable_exp_mul_normPdf (a c : ℝ) :
    Integrable (fun u => Real.exp (a * (c - u)) * normPdf u) := by
  have h : (fun u => Real.exp (a * (c - u)) * normPdf u) =
      fun u => Real.exp (a * c + a ^ 2 / 2) * normPdf (u + a) :=
    funext fun u => normPdf_shift a c u
  rw [h]
  exact (integrable_normPdf.comp_add_right a).const_mul _

/-- Integral of the exponentially tilted normal density over a ray. -/
lemma setIntegral_exp_mul_normPdf (a c : ℝ) :
    (∫ u in Set.Iic c, Real.exp (a * (c - u)) * normPdf u) =
      Real.exp (a * c + a ^ 2 / 2) * normCdf (c + a) := by
  have h : (∫ u in Set.Iic c, Real.exp (a * (c - u)) * normPdf u) =
      ∫ u in Set.Iic c, Real.exp (a * c + a ^ 2 / 2) * normPdf (u + a) := by
    simp only [normPdf_shift]
  rw [h, integral_mul_left, setIntegral_Iic_add_right]
  rfl

/-- The integrand of the call representation is integrable. -/
lemma integrable_call_core (a c : ℝ) :
    Integrable (fun u => (Real.exp (a * (c - u)) - 1) * normPdf u) := by
  refine ((integrable_exp_mul_normPdf a c).sub integrable_normPdf).congr
    (Filter.Eventually.of_forall fun u => ?_)
  simp only [Pi.sub_apply]
  ring

/-- Algebraic core of the call-price representation: the difference of the
two CDF terms is a single integral of a nonnegative integrand. -/
lemma call_core (A B d a : ℝ) (hA : A = B * Real.exp (a * d + a ^ 2 / 2)) :
    A * normCdf (d + a) - B * normCdf d =
      B * ∫ u in Set.Iic d, (Real.exp (a * (d - u)) - 1) * normPdf u := by
  have hsub : (∫ u in Set.Iic d, (Real.exp (a * (d - u)) - 1) * normPdf u) =
      (∫ u in Set.Iic d, Real.exp (a * (d - u)) * normPdf u) -
        ∫ u in Set.Iic d, normPdf u := by
    rw [← integral_sub (integrable_exp_mul_normPdf a d).integrableOn
      integrable_normPdf.integrableOn]
    refine integral_congr_ae (Filter.Eventually.of_forall fun u => ?_)
    ring
  have hcdf : (∫ u in Set.Iic d, normPdf u) = normCdf d := rfl
  rw [hsub, setIntegral_exp_mul_normPdf, hcdf, hA]
  ring

/-- The closed-form call value as a single nonnegative-integrand integral. -/
lemma BSM_call_value_repr (S_0 K T r vola : ℝ)
    (hS : 0 < S_0) (hK : 0 < K) (hT : 0 < T) (hv : 0 < vola) :
    BSM_call_value S_0 K T r vola =
      K * Real.exp (-r * T) *
        ∫ u in Set.Iic (d2val S_0 K T r vola),
          (Real.exp ((vola * Real.sqrt T) * (d2val S_0 K T r vola - u)) - 1) *
            normPdf u := by
  have ha : 0 < vola * Real.sqrt T := mul_pos hv (Real.sqrt_pos.mpr hT)
  have hd1 : d1val S_0 K T r vola = d2val S_0 K T r vola + vola * Real.sqrt T := by
    unfold d2val
    ring
  have hmul : (vola * Real.sqrt T) * d1val S_0 K T r vola =
      Real.log (S_0 / K) + (r + 0.5 * vola ^ 2) * T := by
    unfold d1val
    rw [mul_div_cancel₀]
    exact ne_of_gt ha
  have hsq : (vola * Real.sqrt T) ^ 2 = vola ^ 2 * T := by
    rw [mul_pow, Real.sq_sqrt hT.le]
  have hexp : (vola * Real.sqrt T) * d2val S_0 K T r vola +
      (vola * Real.sqrt T) ^ 2 / 2 = Real.log (S_0 / K) + r * T := by
    unfold d2val
    rw [show (vola * Real.sqrt T) * (d1val S_0 K T r vola - vola * Real.sqrt T) +
        (vola * Real.sqrt T) ^ 2 / 2 =
        (vola * Real.sqrt T) * d1val S_0 K T r vola -
          (vola * Real.sqrt T) ^ 2 / 2 from by ring, hmul, hsq]
    ring
  have hA : S_0 = (K * Real.exp (-r * T)) *
      Real.exp ((vola * Real.sqrt T) * d2val S_0 K T r vola +
        (vola * Real.sqrt T) ^ 2 / 2) := by
    rw [hexp, mul_assoc, ← Real.exp_add,
      show -r * T + (Real.log (S_0 / K) + r * T) = Real.log (S_0 / K) by ring,
      Real.exp_log (div_pos hS hK), mul_comm K, div_mul_cancel₀ _ (ne_of_gt hK)]
  have heq : BSM_call_value S_0 K T r vola =
      S_0 * normCdf (d1val S_0 K T r vola) -
        K * Real.exp (-r * T) * normCdf (d2val S_0 K T r vola) := rfl
  have hval : BSM_call_value S_0 K T r vola =
      S_0 * normCdf (d2val S_0 K T r vola + vola * Real.sqrt T) -
        (K * Real.exp (-r * T)) * normCdf (d2val S_0 K T r vola) := by
    rw [heq, hd1]
  rw [hval]
  exact call_core S_0 (K * Real.exp (-r * T)) (d2val S_0 K T r vola)
    (vola * Real.sqrt T) hA

/-- The representation integrand is nonnegative on the ray. -/
lemma call_core_nonneg (a c : ℝ) (ha : 0 ≤ a) :
    0 ≤ ∫ u in Set.Iic c, (Real.exp (a * (c - u)) - 1) * normPdf u := by
  refine setIntegral_nonneg measurableSet_Iic fun u hu => ?_
  refine mul_nonneg (sub_nonneg.mpr ?_) (normPdf_nonneg u)
  rw [show (1 : ℝ) = Real.exp 0 from (Real.exp_zero).symm]
  exact Real.exp_le_exp.mpr (mul_nonneg ha (sub_nonneg.mpr hu))

/-- The representation integral is monotone in the ray endpoint. -/
lemma call_core_mono (a : ℝ) (ha : 0 ≤ a) {c1 c2 : ℝ} (h : c1 ≤ c2) :
    (∫ u in Set.Iic c1, (Real.exp (a * (c1 - u)) - 1) * normPdf u) ≤
      ∫ u in Set.Iic c2, (Real.exp (a * (c2 - u)) - 1) * normPdf u := by
  have step1 : (∫ u in Set.Iic c1, (Real.exp (a * (c1 - u)) - 1) * normPdf u) ≤
      ∫ u in Set.Iic c1, (Real.exp (a * (c2 - u)) - 1) * normPdf u := by
    refine setIntegral_mono_on (integrable_call_core a c1).integrableOn
      (integrable_call_core a c2).integrableOn measurableSet_Iic fun u _ => ?_
    refine mul_le_mul_of_nonneg_right (sub_le_sub_right ?_ 1) (normPdf_nonneg u)
    exact Real.exp_le_exp.mpr
      (mul_le_mul_of_nonneg_left (sub_le_sub_right h u) ha)
  have step2 : (∫ u in Set.Iic c1, (Real.exp (a * (c2 - u)) - 1) * normPdf u) ≤
      ∫ u in Set.Iic c2, (Real.exp (a * (c2 - u)) - 1) * normPdf u := by
    refine setIntegral_mono_set (integrable_call_core a c2).integrableOn
      ?_ (HasSubset.Subset.eventuallyLE (Set.Iic_subset_Iic.mpr h))
    refine (ae_restrict_iff' measurableSet_Iic).mpr
      (Filter.Eventually.of_forall fun u hu => ?_)
    refine mul_nonneg (sub_nonneg.mpr ?_) (normPdf_nonneg u)
    rw [show (1 : ℝ) = Real.exp 0 from (Real.exp_zero).symm]
    exact Real.exp_le_exp.mpr (mul_nonneg ha (sub_nonneg.mpr hu))
  exact le_trans step1 step2


/-- The closed-form value written through the standalone `d1val`, `d2val`. -/
lemma BSM_call_value_eq (S_0 K T r vola : ℝ) :
    BSM_call_value S_0 K T r vola =
      S_0 * normCdf (d1val S_0 K T r vola) -
        K * Real.exp (-r * T) * normCdf (d2val S_0 K T r vola) := rfl

/-- The standard normal CDF is monotone. -/
lemma normCdf_mono {x y : ℝ} (h : x ≤ y) : normCdf x ≤ normCdf y :=
  setIntegral_mono_set integrable_normPdf.integrableOn
    (Filter.Eventually.of_forall fun u => normPdf_nonneg u)
    (HasSubset.Subset.eventuallyLE (Set.Iic_subset_Iic.mpr h))

/-- The CDF as one half plus a Gaussian interval integral from zero. -/
lemma normCdf_eq_half_add (q : ℝ) :
    normCdf q = 1 / 2 +
      (Real.sqrt (2 * Real.pi))⁻¹ * ∫ t in (0:ℝ)..q, Real.exp (-(t ^ 2) / 2) := by
  have h : (∫ x in Set.Iic q, normPdf x) - ∫ x in Set.Iic (0:ℝ), normPdf x =
      ∫ x in (0:ℝ)..q, normPdf x :=
    intervalIntegral.integral_Iic_sub_Iic integrable_normPdf.integrableOn
      integrable_normPdf.integrableOn
  have h2 : ∫ x in (0:ℝ)..q, normPdf x =
      (Real.sqrt (2 * Real.pi))⁻¹ * ∫ t in (0:ℝ)..q, Real.exp (-(t ^ 2) / 2) := by
    have hpt : (∫ x in (0:ℝ)..q, normPdf x) =
        ∫ x in (0:ℝ)..q, (Real.sqrt (2 * Real.pi))⁻¹ * Real.exp (-(x ^ 2) / 2) := rfl
    have hc : (∫ x in (0:ℝ)..q, (Real.sqrt (2 * Real.pi))⁻¹ * Real.exp (-(x ^ 2) / 2)) =
        (Real.sqrt (2 * Real.pi))⁻¹ * ∫ x in (0:ℝ)..q, Real.exp (-(x ^ 2) / 2) :=
      intervalIntegral.integral_const_mul _ _
    exact hpt.trans hc
  have h0 : (∫ x in Set.Iic (0:ℝ), normPdf x) = 1 / 2 := normCdf_zero
  have hq : (∫ x in Set.Iic q, normPdf x) = normCdf q := rfl
  rw [h0, hq] at h
  linarith [h, h2]

/-- `gaussTaylorInt` is an antiderivative of `gaussTaylorP`. -/
lemma hasDerivAt_gaussTaylorInt (t : ℝ) :
    HasDerivAt gaussTaylorInt (gaussTaylorP t) t := by
  have h := ((((((((((hasDerivAt_id' t : HasDerivAt (fun y : ℝ => y) 1 t)).sub
    ((hasDerivAt_pow 3 t).div_const 6)).add
    ((hasDerivAt_pow 5 t).div_const 40)).sub
    ((hasDerivAt_pow 7 t).div_const 336)).add
    ((hasDerivAt_pow 9 t).div_const 3456)).sub
    ((hasDerivAt_pow 11 t).div_const 42240)).add
    ((hasDerivAt_pow 13 t).div_const 599040)).sub
    ((hasDerivAt_pow 15 t).div_const 9676800)).add
    ((hasDerivAt_pow 17 t).div_const 175472640)).sub
    ((hasDerivAt_pow 19 t).div_const 3530096640)
  unfold gaussTaylorInt gaussTaylorP
  convert h using 1
  push_cast
  ring

/-- Explicit value of the integral of the Taylor polynomial. -/
lemma integral_gaussTaylorP (q : ℝ) :
    ∫ t in (0:ℝ)..q, gaussTaylorP t = gaussTaylorInt q := by
  have hcont : Continuous gaussTaylorP := by
    unfold gaussTaylorP
    fun_prop
  rw [intervalIntegral.integral_eq_sub_of_hasDerivAt
    (fun t _ => hasDerivAt_gaussTaylorInt t) (hcont.intervalIntegrable 0 q)]
  have h0 : gaussTaylorInt 0 = 0 := by
    unfold gaussTaylorInt
    norm_num
  rw [h0, sub_zero]


/-- Two-sided Taylor bound for exp(-t^2/2), uniform on the interval 0 to q. -/
lemma exp_neg_half_sq_bounds (q t : ℝ) (h0 : 0 ≤ t) (htq : t ≤ q) (hq : q ≤ 13 / 10) :
    gaussTaylorP t - gaussTaylorErr q ≤ Real.exp (-(t ^ 2) / 2) ∧
      Real.exp (-(t ^ 2) / 2) ≤ gaussTaylorP t + gaussTaylorErr q := by
  have hqt : t * t ≤ q * q := mul_le_mul htq htq h0 (h0.trans htq)
  have hq2 : q * q ≤ 169 / 100 := by nlinarith
  have hx1 : -(t ^ 2) / 2 ≤ 0 := by nlinarith [sq_nonneg t]
  have habs : |(-(t ^ 2) / 2 : ℝ)| = t ^ 2 / 2 := by
    rw [abs_of_nonpos hx1]
    ring
  have hxle : |(-(t ^ 2) / 2 : ℝ)| ≤ 1 := by
    rw [habs]
    nlinarith
  have h := Real.exp_bound hxle (show 0 < 10 by norm_num)
  have hsum : (∑ m ∈ Finset.range 10, (-(t ^ 2) / 2) ^ m / (m.factorial : ℝ)) =
      gaussTaylorP t := by
    simp [Finset.sum_range_succ, Nat.factorial]
    unfold gaussTaylorP
    ring
  rw [hsum] at h
  have hb : (t ^ 2 / 2) ^ 10 ≤ (q ^ 2 / 2) ^ 10 := by
    apply pow_le_pow_left (by positivity)
    nlinarith
  have h2 : |Real.exp (-(t ^ 2) / 2) - gaussTaylorP t| ≤ gaussTaylorErr q := by
    refine le_trans h ?_
    rw [habs]
    unfold gaussTaylorErr
    refine le_trans (mul_le_mul_of_nonneg_right hb (by positivity)) ?_
    refine mul_le_mul_of_nonneg_left ?_ (by positivity)
    norm_num [Nat.factorial]
  obtain ⟨hlo, hhi⟩ := abs_le.mp h2
  exact ⟨by linarith, by linarith⟩

/-- Two-sided bound on the Gaussian interval integral by the polynomial. -/
lemma intervalIntegral_exp_bounds (q : ℝ) (h0 : 0 ≤ q) (hq : q ≤ 13 / 10) :
    gaussTaylorInt q - gaussTaylorErr q * q ≤
        (∫ t in (0:ℝ)..q, Real.exp (-(t ^ 2) / 2)) ∧
      (∫ t in (0:ℝ)..q, Real.exp (-(t ^ 2) / 2)) ≤
        gaussTaylorInt q + gaussTaylorErr q * q := by
  have hPc : Continuous gaussTaylorP := by
    unfold gaussTaylorP
    fun_prop
  have hEc : Continuous (fun t : ℝ => Real.exp (-(t ^ 2) / 2)) := by fun_prop
  have hPi : IntervalIntegrable gaussTaylorP volume 0 q := hPc.intervalIntegrable 0 q
  have hEi : IntervalIntegrable (fun t : ℝ => Real.exp (-(t ^ 2) / 2)) volume 0 q :=
    hEc.intervalIntegrable 0 q
  have hCi : IntervalIntegrable (fun _ : ℝ => gaussTaylorErr q) volume 0 q :=
    intervalIntegrable_const
  constructor
  · have hmono : (∫ t in (0:ℝ)..q, (gaussTaylorP t - gaussTaylorErr q)) ≤
        ∫ t in (0:ℝ)..q, Real.exp (-(t ^ 2) / 2) :=
      intervalIntegral.integral_mono_on h0 (hPi.sub hCi) hEi fun t ht =>
        (exp_neg_half_sq_bounds q t ht.1 ht.2 hq).1
    rw [intervalIntegral.integral_sub hPi hCi, integral_gaussTaylorP,
      intervalIntegral.integral_const, smul_eq_mul, sub_zero] at hmono
    linarith
  · have hmono : (∫ t in (0:ℝ)..q, Real.exp (-(t ^ 2) / 2)) ≤
        ∫ t in (0:ℝ)..q, (gaussTaylorP t + gaussTaylorErr q) :=
      intervalIntegral.integral_mono_on h0 hEi (hPi.add hCi) fun t ht =>
        (exp_neg_half_sq_bounds q t ht.1 ht.2 hq).2
    rw [intervalIntegral.integral_add hPi hCi, integral_gaussTaylorP,
      intervalIntegral.integral_const, smul_eq_mul, sub_zero] at hmono
    linarith

/-- Certified upper endpoint for exp at the lower log bound. -/
lemma exp_log_point_lo : Real.exp (-(4445177 / 100000000 : ℝ)) < 110 / 115 := by
  have habs : |(-(4445177 / 100000000 : ℝ))| ≤ 1 := by
    rw [abs_of_nonpos (by norm_num)]
    norm_num
  have h := Real.exp_bound habs (show 0 < 6 by norm_num)
  rw [show |(-(4445177 / 100000000 : ℝ))| = 4445177 / 100000000 from by
    rw [abs_of_nonpos (by norm_num)]
    norm_num] at h
  obtain ⟨h1, h2⟩ := abs_le.mp h
  norm_num [Finset.sum_range_succ, Nat.factorial] at h1 h2
  linarith

/-- Certified lower endpoint for exp at the upper log bound. -/
lemma exp_log_point_hi : (110 / 115 : ℝ) < Real.exp (-(177807 / 4000000 : ℝ)) := by
  have habs : |(-(177807 / 4000000 : ℝ))| ≤ 1 := by
    rw [abs_of_nonpos (by norm_num)]
    norm_num
  have h := Real.exp_bound habs (show 0 < 6 by norm_num)
  rw [show |(-(177807 / 4000000 : ℝ))| = 177807 / 4000000 from by
    rw [abs_of_nonpos (by norm_num)]
    norm_num] at h
  obtain ⟨h1, h2⟩ := abs_le.mp h
  norm_num [Finset.sum_range_succ, Nat.factorial] at h1 h2
  linarith

/-- Certified two-sided bound on the discount factor exp(-0.15). -/
lemma exp_rate_bounds : (86070797 / 100000000 : ℝ) < Real.exp (-(3 / 20 : ℝ)) ∧
    Real.exp (-(3 / 20 : ℝ)) < 86070798 / 100000000 := by
  have habs : |(-(3 / 20 : ℝ))| ≤ 1 := by
    rw [abs_of_nonpos (by norm_num)]
    norm_num
  have h := Real.exp_bound habs (show 0 < 8 by norm_num)
  rw [show |(-(3 / 20 : ℝ))| = 3 / 20 from by
    rw [abs_of_nonpos (by norm_num)]
    norm_num] at h
  obtain ⟨h1, h2⟩ := abs_le.mp h
  norm_num [Finset.sum_range_succ, Nat.factorial] at h1 h2
  exact ⟨by linarith, by linarith⟩

/-- Certified two-sided bound on log(110/115). -/
lemma log_ratio_bounds : (-(4445177 / 100000000) : ℝ) < Real.log (110 / 115) ∧
    Real.log (110 / 115) < -(177807 / 4000000) := by
  constructor
  · rw [Real.lt_log_iff_exp_lt (by norm_num : (0:ℝ) < 110 / 115)]
    exact exp_log_point_lo
  · rw [Real.log_lt_iff_lt_exp (by norm_num : (0:ℝ) < 110 / 115)]
    exact exp_log_point_hi

/-- Certified two-sided bound on the square root of three. -/
lemma sqrt_three_bounds : (17320508 / 10000000 : ℝ) < Real.sqrt 3 ∧
    Real.sqrt 3 < 17320509 / 10000000 := by
  constructor
  · rw [Real.lt_sqrt (by norm_num)]
    norm_num
  · rw [Real.sqrt_lt' (by norm_num)]
    norm_num

/-- Certified two-sided bound on the reciprocal square root of two pi. -/
lemma inv_sqrt_two_pi_bounds :
    ((2506629 / 1000000 : ℝ))⁻¹ < (Real.sqrt (2 * Real.pi))⁻¹ ∧
      (Real.sqrt (2 * Real.pi))⁻¹ < ((2506628 / 1000000 : ℝ))⁻¹ := by
  have hlo : (2506628 / 1000000 : ℝ) < Real.sqrt (2 * Real.pi) := by
    rw [Real.lt_sqrt (by norm_num)]
    nlinarith [Real.pi_gt_3141592]
  have hhi : Real.sqrt (2 * Real.pi) < 2506629 / 1000000 := by
    rw [Real.sqrt_lt' (by norm_num)]
    nlinarith [Real.pi_lt_3141593]
  have hpos : (0:ℝ) < 2506628 / 1000000 := by norm_num
  constructor
  · exact inv_lt_inv_of_lt (hpos.trans hlo) hhi
  · exact inv_lt_inv_of_lt hpos hlo


/-- Certified interval for d1 at the fixed notebook parameters. -/
lemma d1_bounds : (12620671 / 10000000 : ℝ) < d1val 110 115 3 0.05 0.05 ∧
    d1val 110 115 3 0.05 0.05 < 504827 / 400000 := by
  obtain ⟨hl1, hl2⟩ := log_ratio_bounds
  obtain ⟨hs1, hs2⟩ := sqrt_three_bounds
  have hden : (0:ℝ) < 0.05 * Real.sqrt 3 :=
    mul_pos (by norm_num) (Real.sqrt_pos.mpr (by norm_num))
  unfold d1val
  rw [show ((0.05:ℝ) + 0.5 * 0.05 ^ 2) * 3 = 0.15375 from by norm_num]
  constructor
  · rw [lt_div_iff hden]
    nlinarith
  · rw [div_lt_iff hden]
    nlinarith

/-- Certified interval for d2 at the fixed notebook parameters. -/
lemma d2_bounds : (11754645 / 10000000 : ℝ) < d2val 110 115 3 0.05 0.05 ∧
    d2val 110 115 3 0.05 0.05 < 235093 / 200000 := by
  obtain ⟨h1, h2⟩ := d1_bounds
  obtain ⟨hs1, hs2⟩ := sqrt_three_bounds
  unfold d2val
  constructor
  · nlinarith
  · nlinarith

/-- Lower CDF bound through the Taylor polynomial, at any point of the
certification range where the polynomial bound is nonnegative. -/
lemma normCdf_ge_taylor (q : ℝ) (h0 : 0 ≤ q) (hq : q ≤ 13 / 10)
    (hFpos : 0 ≤ gaussTaylorInt q - gaussTaylorErr q * q) :
    1 / 2 + ((2506629 / 1000000 : ℝ))⁻¹ * (gaussTaylorInt q - gaussTaylorErr q * q) ≤
      normCdf q := by
  obtain ⟨hI, _⟩ := intervalIntegral_exp_bounds q h0 hq
  obtain ⟨hc1, hc2⟩ := inv_sqrt_two_pi_bounds
  rw [normCdf_eq_half_add]
  have hm : ((2506629 / 1000000 : ℝ))⁻¹ * (gaussTaylorInt q - gaussTaylorErr q * q) ≤
      (Real.sqrt (2 * Real.pi))⁻¹ * ∫ t in (0:ℝ)..q, Real.exp (-(t ^ 2) / 2) :=
    mul_le_mul hc1.le hI hFpos (by positivity)
  linarith

/-- Upper CDF bound through the Taylor polynomial. -/
lemma normCdf_le_taylor (q : ℝ) (h0 : 0 ≤ q) (hq : q ≤ 13 / 10)
    (hFpos : 0 ≤ gaussTaylorInt q - gaussTaylorErr q * q) :
    normCdf q ≤
      1 / 2 + ((2506628 / 1000000 : ℝ))⁻¹ * (gaussTaylorInt q + gaussTaylorErr q * q) := by
  obtain ⟨hI1, hI2⟩ := intervalIntegral_exp_bounds q h0 hq
  obtain ⟨hc1, hc2⟩ := inv_sqrt_two_pi_bounds
  rw [normCdf_eq_half_add]
  have hm : (Real.sqrt (2 * Real.pi))⁻¹ * (∫ t in (0:ℝ)..q, Real.exp (-(t ^ 2) / 2)) ≤
      ((2506628 / 1000000 : ℝ))⁻¹ * (gaussTaylorInt q + gaussTaylorErr q * q) :=
    mul_le_mul hc2.le hI2 (by linarith) (by norm_num)
  linarith

/-- Certified lower bound on the CDF at d1. -/
lemma phi_d1_lo : (8965375 / 10000000 : ℝ) ≤ normCdf (d1val 110 115 3 0.05 0.05) := by
  have h := normCdf_ge_taylor (12620671 / 10000000) (by norm_num) (by norm_num)
    (by unfold gaussTaylorInt gaussTaylorErr; norm_num)
  refine le_trans ?_ (le_trans h (normCdf_mono d1_bounds.1.le))
  unfold gaussTaylorInt gaussTaylorErr
  norm_num

/-- Certified upper bound on the CDF at d1. -/
lemma phi_d1_hi : normCdf (d1val 110 115 3 0.05 0.05) ≤ 8965379 / 10000000 := by
  have h := normCdf_le_taylor (504827 / 400000) (by norm_num) (by norm_num)
    (by unfold gaussTaylorInt gaussTaylorErr; norm_num)
  refine le_trans (le_trans (normCdf_mono d1_bounds.2.le) h) ?_
  unfold gaussTaylorInt gaussTaylorErr
  norm_num

/-- Certified lower bound on the CDF at d2. -/
lemma phi_d2_lo : (8800954 / 10000000 : ℝ) ≤ normCdf (d2val 110 115 3 0.05 0.05) := by
  have h := normCdf_ge_taylor (11754645 / 10000000) (by norm_num) (by norm_num)
    (by unfold gaussTaylorInt gaussTaylorErr; norm_num)
  refine le_trans ?_ (le_trans h (normCdf_mono d2_bounds.1.le))
  unfold gaussTaylorInt gaussTaylorErr
  norm_num

/-- Certified upper bound on the CDF at d2. -/
lemma phi_d2_hi : normCdf (d2val 110 115 3 0.05 0.05) ≤ 8800957 / 10000000 := by
  have h := normCdf_le_taylor (235093 / 200000) (by norm_num) (by norm_num)
    (by unfold gaussTaylorInt gaussTaylorErr; norm_num)
  refine le_trans (le_trans (normCdf_mono d2_bounds.2.le) h) ?_
  unfold gaussTaylorInt gaussTaylorErr
  norm_num

/-! ## Claims C1, C2, C4, C5, C10 and the error-handling claims C3, C9 -/

/-- C1: for every parameter set with spot, strike, maturity and volatility
positive, the closed-form call price equals
spot * Φ(d1) - strike * exp(-rate * maturity) * Φ(d2), where
d1 = (ln(spot/strike) + (rate + 0.5 * volatility^2) * maturity) /
(volatility * sqrt(maturity)), d2 = d1 - volatility * sqrt(maturity), and Φ
is the standard normal CDF with mean 0 and standard deviation 1. -/
theorem claim1_closed_form_formula (S_0 K T r vola : ℝ)
    (hS : 0 < S_0) (hK : 0 < K) (hT : 0 < T) (hv : 0 < vola) :
    BSM_call_value S_0 K T r vola =
      S_0 * normCdf ((Real.log (S_0 / K) + (r + 0.5 * vola ^ 2) * T) /
          (vola * Real.sqrt T)) -
        K * Real.exp (-r * T) *
          normCdf ((Real.log (S_0 / K) + (r + 0.5 * vola ^ 2) * T) /
              (vola * Real.sqrt T) - vola * Real.sqrt T) := rfl

theorem claim1_witness :
    BSM_call_value 110 115 3 0.05 0.05 =
      110 * normCdf ((Real.log (110 / 115) + (0.05 + 0.5 * 0.05 ^ 2) * 3) /
          (0.05 * Real.sqrt 3)) -
        115 * Real.exp (-0.05 * 3) *
          normCdf ((Real.log (110 / 115) + (0.05 + 0.5 * 0.05 ^ 2) * 3) /
              (0.05 * Real.sqrt 3) - 0.05 * Real.sqrt 3) :=
  claim1_closed_form_formula 110 115 3 0.05 0.05 (by norm_num) (by norm_num)
    (by norm_num) (by norm_num)

/-- C2: for every valid parameter set and every list of draws, the Monte
Carlo estimate equals the discounted sample mean
exp(-rate * maturity) * mean over i of max(S_T_i - strike, 0), with
S_T_i = spot * exp((rate - 0.5 * volatility^2) * maturity +
sqrt(maturity) * volatility * z_i). -/
theorem claim2_mcs_discounted_mean (S_0 K T r vola : ℝ) (rand : List ℝ)
    (hS : 0 < S_0) (hK : 0 < K) (hT : 0 < T) (hv : 0 < vola)
    (hlen : 0 < rand.length) :
    mcs_pv S_0 K T r vola rand =
      Real.exp (-r * T) *
        (((rand.map fun z => max (S_T S_0 T r vola z - K) 0).sum) /
          (rand.length : ℝ)) := by
  unfold mcs_pv
  rw [List.sum_map_mul_right]
  ring

theorem claim2_witness :
    mcs_pv 110 115 3 0.05 0.05 [0, 1] =
      Real.exp (-0.05 * 3) *
        (((List.map (fun z => max (S_T 110 3 0.05 0.05 z - 115) 0) [0, 1]).sum) /
          ((List.length [0, 1] : ℕ) : ℝ)) :=
  claim2_mcs_discounted_mean 110 115 3 0.05 0.05 [0, 1] (by norm_num)
    (by norm_num) (by norm_num) (by norm_num) (by norm_num)

/-- C3 counterexample: with volatility 0 (other parameters valid) the Monte
Carlo cell does not raise any error at all, in particular not the claimed
InvalidParameterError: numpy computes a numeric result. -/
theorem claim3_counterexample :
    mcs_run (fun _ => [0]) 110 115 3 0.05 0 1 ≠
      Except.error PyErr.invalidParameterError := by
  unfold mcs_run
  rw [if_neg (by norm_num : ¬ (1 : ℤ) < 0)]
  exact fun h => Except.noConfusion h

/-- C3 amended: the code defines no InvalidParameterError and performs no
input validation.  The closed-form pricer fails on non-positive inputs only
through the underlying math operations, after the offending subexpression is
reached: ValueError from math.log at spot = 0, ZeroDivisionError at
strike = 0, maturity = 0 or volatility = 0; the Monte Carlo pricer raises
nothing for non-positive parameters (here volatility = 0) and produces a
numeric result. -/
theorem claim3_amended (S_0 K T r vola : ℝ) (gen : ℤ → List ℝ) (I : ℤ)
    (hS : 0 < S_0) (hK : 0 < K) (hT : 0 < T) (hI : 0 ≤ I) :
    BSM_call_value_run 0 K T r vola = Except.error PyErr.valueError ∧
    BSM_call_value_run S_0 0 T r vola = Except.error PyErr.zeroDivisionError ∧
    BSM_call_value_run S_0 K 0 r vola = Except.error PyErr.zeroDivisionError ∧
    BSM_call_value_run S_0 K T r 0 = Except.error PyErr.zeroDivisionError ∧
    ∀ e : PyErr, mcs_run gen S_0 K T r 0 I ≠ Except.error e := by
  have hK0 : K ≠ 0 := ne_of_gt hK
  have hSK : 0 < S_0 / K := div_pos hS hK
  have hT0 : ¬ T < 0 := not_lt.mpr hT.le
  refine ⟨?_, ?_, ?_, ?_, ?_⟩
  · simp [BSM_call_value_run, pyDiv, pyLog, hK0, zero_div]
  · simp [BSM_call_value_run, pyDiv]
  · simp [BSM_call_value_run, pyDiv, pyLog, pySqrt, hK0, hSK.not_le, Real.sqrt_zero]
  · simp [BSM_call_value_run, pyDiv, pyLog, pySqrt, hK0, hSK.not_le, hT0]
  · intro e
    simp [mcs_run, not_lt.mpr hI]

theorem claim3_witness :
    BSM_call_value_run 0 115 3 0.05 0.05 = Except.error PyErr.valueError ∧
    BSM_call_value_run 110 0 3 0.05 0.05 = Except.error PyErr.zeroDivisionError ∧
    BSM_call_value_run 110 115 0 0.05 0.05 = Except.error PyErr.zeroDivisionError ∧
    BSM_call_value_run 110 115 3 0.05 0 = Except.error PyErr.zeroDivisionError ∧
    ∀ e : PyErr, mcs_run (fun _ => [0]) 110 115 3 0.05 0 1 ≠ Except.error e :=
  claim3_amended 110 115 3 0.05 0.05 (fun _ => [0]) 1 (by norm_num) (by norm_num)
    (by norm_num) (by norm_num)

/-- C4: the Monte Carlo estimate is a deterministic function of the
parameters, the path count and the seed: once the library generator is an
explicit deterministic function of the seed (spec sections 6 and 9), any two
calls receiving the same draws, in particular two calls with the same
generator and seed, return identical outputs. -/
theorem claim4_reproducible (gen1 gen2 : ℕ → ℕ → List ℝ) (seed1 seed2 : ℕ)
    (S_0 K T r vola : ℝ) (I : ℕ)
    (hS : 0 < S_0) (hK : 0 < K) (hT : 0 < T) (hv : 0 < vola) (hI : 0 < I)
    (hdraws : gen1 seed1 I = gen2 seed2 I) :
    monteCarloCallValue gen1 S_0 K T r vola I seed1 =
      monteCarloCallValue gen2 S_0 K T r vola I seed2 := by
  unfold monteCarloCallValue
  rw [hdraws]

theorem claim4_witness :
    monteCarloCallValue (fun _ _ => [0]) 110 115 3 0.05 0.05 1 7 =
      monteCarloCallValue (fun _ _ => [0]) 110 115 3 0.05 0.05 1 7 :=
  claim4_reproducible (fun _ _ => [0]) (fun _ _ => [0]) 7 7 110 115 3 0.05 0.05 1
    (by norm_num) (by norm_num) (by norm_num) (by norm_num) (by norm_num) rfl

/-- C5: for every parameter set with spot, strike, maturity and volatility
positive, vega equals spot * φ(d1) * sqrt(maturity) with φ the standard
normal density, and this value is non-negative. -/
theorem claim5_vega (S_0 K T r vola : ℝ)
    (hS : 0 < S_0) (hK : 0 < K) (hT : 0 < T) (hv : 0 < vola) :
    OptionVega.vega ⟨⟨S_0, K, T, r, vola⟩⟩ =
      S_0 * normPdf ((Real.log (S_0 / K) + (r + 0.5 * vola ^ 2) * T) /
          (vola * Real.sqrt T)) * Real.sqrt T ∧
    0 ≤ OptionVega.vega ⟨⟨S_0, K, T, r, vola⟩⟩ := by
  constructor
  · rfl
  · exact mul_nonneg (mul_nonneg hS.le (normPdf_nonneg _)) (Real.sqrt_nonneg _)

theorem claim5_witness :
    OptionVega.vega ⟨⟨110, 115, 3, 0.05, 0.05⟩⟩ =
      110 * normPdf ((Real.log (110 / 115) + (0.05 + 0.5 * 0.05 ^ 2) * 3) /
          (0.05 * Real.sqrt 3)) * Real.sqrt 3 ∧
    0 ≤ OptionVega.vega ⟨⟨110, 115, 3, 0.05, 0.05⟩⟩ :=
  claim5_vega 110 115 3 0.05 0.05 (by norm_num) (by norm_num) (by norm_num)
    (by norm_num)

/-- C9 counterexample: at path count 0 (the generator returning, as numpy
does, the empty vector) the Monte Carlo cell does not fail with the claimed
InvalidSampleCountError: it produces a result. -/
theorem claim9_counterexample :
    mcs_run (fun _ => []) 110 115 3 0.05 0.05 0 ≠
      Except.error PyErr.invalidSampleCountError := by
  unfold mcs_run
  rw [if_neg (by norm_num : ¬ (0 : ℤ) < 0)]
  exact fun h => Except.noConfusion h

/-- C9 amended: no InvalidSampleCountError exists in the code and the path
count is not validated.  For pathCount < 0 the cell fails with the library's
ValueError from np.random.standard_normal; for pathCount = 0 no error is
raised and the cell returns the quotient 0 / 0 (numpy: nan with a runtime
warning; 0 in the real-number model). -/
theorem claim9_amended (S_0 K T r vola : ℝ) (gen : ℤ → List ℝ) (I : ℤ)
    (hI : I < 0) (hgen : gen 0 = []) :
    mcs_run gen S_0 K T r vola I = Except.error PyErr.valueError ∧
    mcs_run gen S_0 K T r vola 0 = Except.ok 0 := by
  constructor
  · simp [mcs_run, hI]
  · simp [mcs_run, hgen]

theorem claim9_witness :
    mcs_run (fun _ => []) 110 115 3 0.05 0.05 (-1) = Except.error PyErr.valueError ∧
    mcs_run (fun _ => []) 110 115 3 0.05 0.05 0 = Except.ok 0 :=
  claim9_amended 110 115 3 0.05 0.05 (fun _ => []) (-1) (by norm_num) rfl

/-- C10: for every parameter set with spot, strike, maturity and volatility
positive, the class-based pricer Option.Call_Option, also as inherited
unchanged by OptionVega, and the standalone function BSM_call_value return
the same value on the same parameters. -/
theorem claim10_class_matches_function (S_0 K T r vola : ℝ)
    (hS : 0 < S_0) (hK : 0 < K) (hT : 0 < T) (hv : 0 < vola) :
    OptionBSM.Call_Option ⟨S_0, K, T, r, vola⟩ = BSM_call_value S_0 K T r vola ∧
    OptionVega.Call_Option ⟨⟨S_0, K, T, r, vola⟩⟩ = BSM_call_value S_0 K T r vola :=
  ⟨rfl, rfl⟩

theorem claim10_witness :
    OptionBSM.Call_Option ⟨110, 115, 3, 0.05, 0.05⟩ = BSM_call_value 110 115 3 0.05 0.05 ∧
    OptionVega.Call_Option ⟨⟨110, 115, 3, 0.05, 0.05⟩⟩ = BSM_call_value 110 115 3 0.05 0.05 :=
  claim10_class_matches_function 110 115 3 0.05 0.05 (by norm_num) (by norm_num)
    (by norm_num) (by norm_num)

/-- C7: with strike, maturity and volatility fixed and valid, the closed-form
call price is non-decreasing in spot: for 0 < s1 <= s2 the value at s1 is at
most the value at s2. -/
theorem claim7_monotone_in_spot (s1 s2 K T r vola : ℝ)
    (h1 : 0 < s1) (h12 : s1 ≤ s2) (hK : 0 < K) (hT : 0 < T) (hv : 0 < vola) :
    BSM_call_value s1 K T r vola ≤ BSM_call_value s2 K T r vola := by
  have h2 : 0 < s2 := lt_of_lt_of_le h1 h12
  have ha : 0 < vola * Real.sqrt T := mul_pos hv (Real.sqrt_pos.mpr hT)
  have hd : d2val s1 K T r vola ≤ d2val s2 K T r vola := by
    unfold d2val d1val
    have hlog : Real.log (s1 / K) ≤ Real.log (s2 / K) := by
      gcongr
    gcongr
  rw [BSM_call_value_repr s1 K T r vola h1 hK hT hv,
    BSM_call_value_repr s2 K T r vola h2 hK hT hv]
  exact mul_le_mul_of_nonneg_left (call_core_mono _ ha.le hd)
    (mul_nonneg hK.le (Real.exp_pos _).le)

theorem claim7_witness :
    BSM_call_value 100 115 3 0.05 0.05 ≤ BSM_call_value 110 115 3 0.05 0.05 :=
  claim7_monotone_in_spot 100 110 115 3 0.05 0.05 (by norm_num) (by norm_num)
    (by norm_num) (by norm_num) (by norm_num)

/-- C8: for every valid parameter combination the closed-form price is
nonnegative, and for every list of draws the Monte Carlo estimate is
nonnegative (each per-path payoff is nonnegative, hence so is the discounted
mean). -/
theorem claim8_nonneg (S_0 K T r vola : ℝ) (rand : List ℝ)
    (hS : 0 < S_0) (hK : 0 < K) (hT : 0 < T) (hv : 0 < vola) :
    0 ≤ BSM_call_value S_0 K T r vola ∧ 0 ≤ mcs_pv S_0 K T r vola rand := by
  constructor
  · rw [BSM_call_value_repr S_0 K T r vola hS hK hT hv]
    exact mul_nonneg (mul_nonneg hK.le (Real.exp_pos _).le)
      (call_core_nonneg _ _ (mul_nonneg hv.le (Real.sqrt_nonneg _)))
  · unfold mcs_pv
    refine div_nonneg (List.sum_nonneg fun x hx => ?_) (Nat.cast_nonneg _)
    obtain ⟨z, _, rfl⟩ := List.mem_map.mp hx
    exact mul_nonneg (le_max_right _ _) (Real.exp_pos _).le

theorem claim8_witness :
    0 ≤ BSM_call_value 110 115 3 0.05 0.05 ∧ 0 ≤ mcs_pv 110 115 3 0.05 0.05 [0, 1] :=
  claim8_nonneg 110 115 3 0.05 0.05 [0, 1] (by norm_num) (by norm_num)
    (by norm_num) (by norm_num)

/-- C6: for the fixed parameters spot 110, strike 115, maturity 3, rate 0.05
and volatility 0.05, the closed-form call value is 11.506 correct to three
decimal places: its distance to 11.506 is below 0.0005. -/
theorem claim6_value_matches_11_506 :
    |BSM_call_value 110 115 3 0.05 0.05 - 11.506| < 0.0005 := by
  have heq : BSM_call_value 110 115 3 0.05 0.05 =
      110 * normCdf (d1val 110 115 3 0.05 0.05) -
        115 * Real.exp (-0.05 * 3) * normCdf (d2val 110 115 3 0.05 0.05) :=
    BSM_call_value_eq 110 115 3 0.05 0.05
  rw [heq, show (-0.05 * 3 : ℝ) = -(3 / 20) from by norm_num,
    mul_assoc 115 (Real.exp (-(3 / 20 : ℝ)))]
  obtain ⟨he1, he2⟩ := exp_rate_bounds
  have hp1a := phi_d1_lo
  have hp1b := phi_d1_hi
  have hp2a := phi_d2_lo
  have hp2b := phi_d2_hi
  have hprod_hi : Real.exp (-(3 / 20 : ℝ)) * normCdf (d2val 110 115 3 0.05 0.05) ≤
      (86070798 / 100000000 : ℝ) * (8800957 / 10000000) :=
    mul_le_mul he2.le hp2b (le_trans (by norm_num) hp2a) (by norm_num)
  have hprod_lo : (86070797 / 100000000 : ℝ) * (8800954 / 10000000) ≤
      Real.exp (-(3 / 20 : ℝ)) * normCdf (d2val 110 115 3 0.05 0.05) :=
    mul_le_mul he1.le hp2a (by norm_num) (Real.exp_pos _).le
  rw [abs_lt]
  constructor
  · nlinarith
  · nlinarith
